import Mathlib

/-!
# form-js: repeat rendering and number field — verification development

Shallow embedding of the two algorithmic cores of the repository:

* `RepeatRenderManager` (packages/form-js-viewer/src/features/repeatRender/RepeatRenderManager.js):
  visible-slice computation, add/remove/collapse actions of repeatable groups.
* `Numberfield` (packages/form-js-viewer/src/render/components/form-fields/Number.js):
  text-to-number normalization, display-value logic and modulus-aligned stepping.

The number field performs its arithmetic with big.js, an exact
decimal-arithmetic library.  We model big.js numbers as scaled decimals
`Dec` (an integer mantissa `m` and a decimal exponent `e`, denoting
`m / 10 ^ e`) with exact rational semantics through `Dec.toRat`.
-/

/-- A big.js decimal: mantissa `m`, scale `e`; denotes `m / 10 ^ e`. -/
structure Dec where
  m : Int
  e : Nat
deriving DecidableEq, Repr

namespace Dec

/-- Exact rational value of a decimal. -/
def toRat (d : Dec) : ℚ := (d.m : ℚ) / (10 : ℚ) ^ d.e

/-- Trailing-zero stripping on a mantissa/scale pair. -/
def normAux : Int → Nat → Dec
  | m, 0 => ⟨m, 0⟩
  | m, e + 1 => if m % 10 = 0 then normAux (m / 10) e else ⟨m, e + 1⟩

/-- Canonical form: strip trailing zeros of the mantissa (big.js keeps its
coefficient in this normalized form, so `1.00` and `1` are the same number). -/
def norm (d : Dec) : Dec := normAux d.m d.e

/-- Addition, by aligning the scales (exact, as in big.js `plus`). -/
def add (a b : Dec) : Dec :=
  let E := max a.e b.e
  ⟨a.m * 10 ^ (E - a.e) + b.m * 10 ^ (E - b.e), E⟩

/-- Subtraction, by aligning the scales (exact, as in big.js `minus`). -/
def sub (a b : Dec) : Dec :=
  let E := max a.e b.e
  ⟨a.m * 10 ^ (E - a.e) - b.m * 10 ^ (E - b.e), E⟩

/-- big.js `mod`: truncated remainder (result carries the sign of the
dividend), computed on the scale-aligned mantissas. -/
def mod (a b : Dec) : Dec :=
  let E := max a.e b.e
  ⟨Int.tmod (a.m * 10 ^ (E - a.e)) (b.m * 10 ^ (E - b.e)), E⟩

theorem normAux_toRat (e : Nat) : ∀ m : Int, (normAux m e).toRat = toRat ⟨m, e⟩ := by
  induction e with
  | zero => intro m; rfl
  | succ e ih =>
    intro m
    rw [normAux]
    by_cases h : m % 10 = 0
    · rw [if_pos h, ih]
      obtain ⟨k, hk⟩ := Int.dvd_of_emod_eq_zero h
      subst hk
      rw [Int.mul_ediv_cancel_left k (by norm_num)]
      simp only [toRat]
      push_cast
      rw [pow_succ]
      rw [div_eq_div_iff (by positivity) (by positivity)]
      ring
    · rw [if_neg h]

theorem norm_toRat (d : Dec) : d.norm.toRat = d.toRat := by
  rcases d with ⟨m, e⟩
  exact normAux_toRat e m

theorem normAux_invariant (e : Nat) :
    ∀ m : Int, (normAux m e).e = 0 ∨ (normAux m e).m % 10 ≠ 0 := by
  induction e with
  | zero => intro m; left; rfl
  | succ e ih =>
    intro m
    rw [normAux]
    by_cases h : m % 10 = 0
    · rw [if_pos h]; exact ih (m / 10)
    · rw [if_neg h]; right; exact h

/-- The normal form has scale zero or a mantissa not divisible by ten. -/
theorem norm_invariant (d : Dec) : d.norm.e = 0 ∨ d.norm.m % 10 ≠ 0 := by
  rcases d with ⟨m, e⟩
  exact normAux_invariant e m

theorem norm_idem (d : Dec) : d.norm.norm = d.norm := by
  rcases norm_invariant d with h | h
  · rcases hd : d.norm with ⟨m, e⟩
    rw [hd] at h
    simp only at h
    subst h
    rfl
  · rcases hd : d.norm with ⟨m, e⟩
    rw [hd] at h
    simp only at h
    cases e with
    | zero => rfl
    | succ e =>
      show normAux m (e + 1) = ⟨m, e + 1⟩
      rw [normAux, if_neg h]

theorem cast_scale_div (m : Int) (e E : Nat) (h : e ≤ E) :
    ((m : ℚ) * 10 ^ (E - e)) / 10 ^ E = (m : ℚ) / 10 ^ e := by
  rw [div_eq_div_iff (by positivity) (by positivity), mul_assoc, ← pow_add,
    Nat.sub_add_cancel h]

theorem toRat_add (a b : Dec) : (a.add b).toRat = a.toRat + b.toRat := by
  rcases a with ⟨m₁, e₁⟩
  rcases b with ⟨m₂, e₂⟩
  simp only [add, toRat]
  push_cast
  rw [add_div, cast_scale_div m₁ e₁ _ (le_max_left e₁ e₂),
    cast_scale_div m₂ e₂ _ (le_max_right e₁ e₂)]

theorem toRat_sub (a b : Dec) : (a.sub b).toRat = a.toRat - b.toRat := by
  rcases a with ⟨m₁, e₁⟩
  rcases b with ⟨m₂, e₂⟩
  simp only [sub, toRat]
  push_cast
  rw [sub_div, cast_scale_div m₁ e₁ _ (le_max_left e₁ e₂),
    cast_scale_div m₂ e₂ _ (le_max_right e₁ e₂)]

end Dec

/-! ## Decimal digit strings

Rendering (`Dec.toFixed`, modelling big.js `toFixed()` with no argument:
normal notation, canonical form) and parsing (`parseDec?`, modelling the
plain decimal notation accepted by JS `Number()` / the big.js constructor:
optional sign, integer digits, optional fraction). -/

/-- The character of a decimal digit. -/
def digitChar (n : Nat) : Char := Char.ofNat (48 + n)

/-- The digit denoted by a character. -/
def charVal (c : Char) : Nat := c.toNat - 48

/-- Little-endian digits, with explicit fuel for structural recursion. -/
def natLEGo : Nat → Nat → List Nat
  | 0, _ => []
  | fuel + 1, n => if n = 0 then [] else n % 10 :: natLEGo fuel (n / 10)

/-- Little-endian digits of a natural number (empty for zero). -/
def natLE (n : Nat) : List Nat := natLEGo n n

/-- Exactly `w` little-endian digits of `n % 10 ^ w`. -/
def natLEPad : Nat → Nat → List Nat
  | _, 0 => []
  | n, w + 1 => n % 10 :: natLEPad (n / 10) w

/-- The decimal digit characters of a natural number, most significant first. -/
def natChars (n : Nat) : List Char :=
  if n = 0 then ['0'] else ((natLE n).map digitChar).reverse

/-- Value of a big-endian list of digit characters. -/
def digitsVal (l : List Char) : Nat :=
  l.foldl (fun a c => 10 * a + charVal c) 0

/-- big.js `toFixed()` (no argument): sign, integer digits, and — when the
canonical form has a nonzero scale — a dot and exactly `e` fraction digits. -/
def Dec.toFixedChars (d : Dec) : List Char :=
  let c := d.norm
  let sign : List Char := if c.m < 0 then ['-'] else []
  if c.e = 0 then sign ++ natChars c.m.natAbs
  else
    sign ++ natChars (c.m.natAbs / 10 ^ c.e) ++
      '.' :: ((natLEPad c.m.natAbs c.e).map digitChar).reverse

def Dec.toFixed (d : Dec) : String := ⟨d.toFixedChars⟩

/-- Strip one leading sign character, returning whether it was a minus. -/
def splitSign : List Char → Bool × List Char
  | [] => (false, [])
  | c :: r => if c = '-' then (true, r) else if c = '+' then (false, r) else (false, c :: r)

/-- Parse the unsigned part of a decimal numeral: integer digits, optionally
a dot and fraction digits; at least one digit overall. -/
def parseAfterSign (neg : Bool) (cs : List Char) : Option Dec :=
  let sgn : Int := if neg then -1 else 1
  let ip := cs.takeWhile Char.isDigit
  match cs.dropWhile Char.isDigit with
  | [] => if ip = [] then none else some ⟨sgn * digitsVal ip, 0⟩
  | '.' :: fp =>
    if (ip = [] ∧ fp = []) ∨ ¬ fp.all Char.isDigit then none
    else some ⟨sgn * (digitsVal ip * 10 ^ fp.length + digitsVal fp), fp.length⟩
  | _ => none

/-- Parse a plain decimal numeral: optional sign, integer digits, optionally
a dot and fraction digits; at least one digit overall.  Models the strings
on which JS `Number(s)` yields a finite number in the fragment the number
field produces and consumes. -/
def parseDecList? (cs : List Char) : Option Dec :=
  parseAfterSign (splitSign cs).1 (splitSign cs).2

def parseDec? (s : String) : Option Dec := parseDecList? s.data

/-! ### Render/parse round trip -/

/-- Little-endian digit-list value. -/
def valLE (L : List Nat) : Nat := L.foldr (fun d a => 10 * a + d) 0

theorem charVal_digitChar {n : Nat} (h : n < 10) : charVal (digitChar n) = n := by
  interval_cases n <;> decide

theorem isDigit_digitChar {n : Nat} (h : n < 10) : (digitChar n).isDigit = true := by
  interval_cases n <;> decide

theorem isDigit_ne {c : Char} (h : c.isDigit = true) :
    c ≠ '-' ∧ c ≠ '+' ∧ c ≠ '.' ∧ c ≠ ',' := by
  refine ⟨?_, ?_, ?_, ?_⟩ <;> (intro heq; rw [heq] at h; exact absurd h (by decide))

theorem not_whitespace_of_isDigit {c : Char} (h : c.isDigit = true) :
    c.isWhitespace = false := by
  have h1 : ¬ (c = ' ') := by rintro rfl; exact absurd h (by decide)
  have h2 : ¬ (c = '\t') := by rintro rfl; exact absurd h (by decide)
  have h3 : ¬ (c = '\r') := by rintro rfl; exact absurd h (by decide)
  have h4 : ¬ (c = '\n') := by rintro rfl; exact absurd h (by decide)
  simp [Char.isWhitespace, h1, h2, h3, h4]

theorem natLEGo_congr :
    ∀ fuel₁ fuel₂ n : Nat, n ≤ fuel₁ → n ≤ fuel₂ →
      natLEGo fuel₁ n = natLEGo fuel₂ n := by
  intro fuel₁
  induction fuel₁ with
  | zero =>
    intro fuel₂ n h1 _
    interval_cases n
    cases fuel₂ with
    | zero => rfl
    | succ f => rw [natLEGo, natLEGo, if_pos rfl]
  | succ f₁ ih =>
    intro fuel₂ n h1 h2
    cases fuel₂ with
    | zero =>
      interval_cases n
      rw [natLEGo, natLEGo, if_pos rfl]
    | succ f₂ =>
      rw [natLEGo, natLEGo]
      by_cases h : n = 0
      · rw [if_pos h, if_pos h]
      · rw [if_neg h, if_neg h]
        have hdiv : n / 10 < n := Nat.div_lt_self (Nat.pos_of_ne_zero h) (by norm_num)
        rw [ih f₂ (n / 10) (by omega) (by omega)]

/-- The recursive unfolding of `natLE`. -/
theorem natLE_unfold (n : Nat) :
    natLE n = if n = 0 then [] else n % 10 :: natLE (n / 10) := by
  by_cases h : n = 0
  · subst h
    rfl
  · rw [if_neg h]
    rcases n with _ | k
    · exact absurd rfl h
    · rw [natLE, natLEGo, if_neg h]
      rw [natLE, natLEGo_congr k ((k + 1) / 10) ((k + 1) / 10)
        (by omega) (le_refl _)]

theorem valLE_natLE (n : Nat) : valLE (natLE n) = n := by
  induction n using Nat.strong_induction_on with
  | _ n ih =>
    rw [natLE_unfold]
    by_cases h : n = 0
    · simp [h, valLE]
    · rw [if_neg h]
      simp only [valLE, List.foldr_cons]
      have hrec := ih (n / 10) (Nat.div_lt_self (Nat.pos_of_ne_zero h) (by norm_num))
      rw [show List.foldr (fun d a => 10 * a + d) 0 (natLE (n / 10)) = valLE (natLE (n / 10))
        from rfl, hrec]
      exact Nat.div_add_mod n 10

theorem valLE_natLEPad (w : Nat) : ∀ n, valLE (natLEPad n w) = n % 10 ^ w := by
  induction w with
  | zero => intro n; simp [natLEPad, valLE, Nat.mod_one]
  | succ w ih =>
    intro n
    simp only [natLEPad, valLE, List.foldr_cons]
    rw [show List.foldr (fun d a => 10 * a + d) 0 (natLEPad (n / 10) w) =
      valLE (natLEPad (n / 10) w) from rfl, ih]
    rw [pow_succ']
    rw [Nat.mod_mul]
    omega

theorem natLE_lt (n : Nat) : ∀ d ∈ natLE n, d < 10 := by
  induction n using Nat.strong_induction_on with
  | _ n ih =>
    rw [natLE_unfold]
    by_cases h : n = 0
    · simp [h]
    · rw [if_neg h]
      intro d hd
      rcases List.mem_cons.mp hd with h1 | h1
      · subst h1; exact Nat.mod_lt _ (by norm_num)
      · exact ih (n / 10) (Nat.div_lt_self (Nat.pos_of_ne_zero h) (by norm_num)) d h1

theorem natLEPad_lt (w : Nat) : ∀ n d, d ∈ natLEPad n w → d < 10 := by
  induction w with
  | zero => intro n d hd; simp [natLEPad] at hd
  | succ w ih =>
    intro n d hd
    rcases List.mem_cons.mp hd with h1 | h1
    · subst h1; exact Nat.mod_lt _ (by norm_num)
    · exact ih (n / 10) d h1

theorem natLEPad_length (w : Nat) (n : Nat) : (natLEPad n w).length = w := by
  induction w generalizing n with
  | zero => rfl
  | succ w ih => simp [natLEPad, ih]

theorem digitsVal_rev_map (L : List Nat) (h : ∀ d ∈ L, d < 10) :
    digitsVal ((L.map digitChar).reverse) = valLE L := by
  induction L with
  | nil => rfl
  | cons d t ih =>
    simp only [List.map_cons, List.reverse_cons]
    simp only [digitsVal, List.foldl_append, List.foldl_cons, List.foldl_nil]
    rw [show List.foldl (fun a c => 10 * a + charVal c) 0 ((t.map digitChar).reverse) =
      digitsVal ((t.map digitChar).reverse) from rfl]
    rw [ih (fun d hd => h d (List.mem_cons_of_mem _ hd))]
    rw [charVal_digitChar (h d (List.mem_cons_self d t))]
    rfl

theorem digitsVal_natChars (n : Nat) : digitsVal (natChars n) = n := by
  rw [natChars]
  by_cases h : n = 0
  · simp [h, digitsVal, charVal]
  · rw [if_neg h, digitsVal_rev_map _ (natLE_lt n), valLE_natLE]

theorem natChars_ne_nil (n : Nat) : natChars n ≠ [] := by
  rw [natChars]
  by_cases h : n = 0
  · simp [h]
  · rw [if_neg h]
    intro hc
    rw [List.reverse_eq_nil_iff, List.map_eq_nil_iff] at hc
    rw [natLE_unfold, if_neg h] at hc
    exact List.cons_ne_nil _ _ hc

theorem natChars_all_digits (n : Nat) : ∀ c ∈ natChars n, c.isDigit = true := by
  rw [natChars]
  by_cases h : n = 0
  · simp [h]
  · rw [if_neg h]
    intro c hc
    rw [List.mem_reverse, List.mem_map] at hc
    obtain ⟨d, hd, rfl⟩ := hc
    exact isDigit_digitChar (natLE_lt n d hd)

theorem padChars_all_digits (w n : Nat) :
    ∀ c ∈ ((natLEPad n w).map digitChar).reverse, c.isDigit = true := by
  intro c hc
  rw [List.mem_reverse, List.mem_map] at hc
  obtain ⟨d, hd, rfl⟩ := hc
  exact isDigit_digitChar (natLEPad_lt w n d hd)

theorem takeWhile_all {p : Char → Bool} :
    ∀ l : List Char, (∀ c ∈ l, p c = true) → l.takeWhile p = l ∧ l.dropWhile p = [] := by
  intro l
  induction l with
  | nil => intro _; exact ⟨rfl, rfl⟩
  | cons c t ih =>
    intro h
    have hc : p c = true := h c (List.mem_cons_self c t)
    have ht := ih (fun d hd => h d (List.mem_cons_of_mem _ hd))
    simp [List.takeWhile_cons, List.dropWhile_cons, hc, ht.1, ht.2]

theorem takeWhile_split {p : Char → Bool} :
    ∀ l : List Char, (∀ c ∈ l, p c = true) → ∀ x r, p x = false →
      ((l ++ x :: r).takeWhile p = l ∧ (l ++ x :: r).dropWhile p = x :: r) := by
  intro l
  induction l with
  | nil => intro _ x r hx; simp [List.takeWhile_cons, List.dropWhile_cons, hx]
  | cons c t ih =>
    intro h x r hx
    have hc : p c = true := h c (List.mem_cons_self c t)
    have ht := ih (fun d hd => h d (List.mem_cons_of_mem _ hd)) x r hx
    simp [List.takeWhile_cons, List.dropWhile_cons, hc, ht.1, ht.2]

theorem splitSign_nosign (c : Char) (r : List Char) (h1 : c ≠ '-') (h2 : c ≠ '+') :
    splitSign (c :: r) = (false, c :: r) := by
  simp [splitSign, h1, h2]

theorem splitSign_neg (r : List Char) : splitSign ('-' :: r) = (true, r) := by
  simp [splitSign]

theorem parseAfterSign_digits (neg : Bool) (l : List Char)
    (hl : ∀ c ∈ l, c.isDigit = true) (hne : l ≠ []) :
    parseAfterSign neg l = some ⟨(if neg then -1 else 1) * digitsVal l, 0⟩ := by
  have h := takeWhile_all l hl
  rw [parseAfterSign]
  rw [h.1, h.2]
  simp only
  rw [if_neg hne]

theorem parseAfterSign_dot (neg : Bool) (l fp : List Char)
    (hl : ∀ c ∈ l, c.isDigit = true) (hne : l ≠ [])
    (hfp : ∀ c ∈ fp, c.isDigit = true) :
    parseAfterSign neg (l ++ '.' :: fp) =
      some ⟨(if neg then -1 else 1) * (digitsVal l * 10 ^ fp.length + digitsVal fp),
        fp.length⟩ := by
  have h := takeWhile_split l hl '.' fp (by decide)
  have hcond : ¬ ((l = [] ∧ fp = []) ∨ ¬ fp.all Char.isDigit) := by
    intro hcontra
    rcases hcontra with ⟨hl0, _⟩ | hna
    · exact hne hl0
    · exact hna (List.all_eq_true.mpr hfp)
  rw [parseAfterSign]
  rw [h.1, h.2]
  simp only
  rw [if_neg hcond]

theorem parseDecList_negcase (r : List Char) :
    parseDecList? ('-' :: r) = parseAfterSign true r := by
  rw [parseDecList?, splitSign_neg]

theorem parseDecList_digit_head (c0 : Char) (r : List Char) (hd : c0.isDigit = true) :
    parseDecList? (c0 :: r) = parseAfterSign false (c0 :: r) := by
  rw [parseDecList?, splitSign_nosign c0 r (isDigit_ne hd).1 (isDigit_ne hd).2.1]

/-- Parsing an all-digit nonempty body through the sign splitter. -/
theorem parseDecList_digits (l : List Char)
    (hl : ∀ c ∈ l, c.isDigit = true) (hne : l ≠ []) :
    parseDecList? l = some ⟨digitsVal l, 0⟩ := by
  rcases l with _ | ⟨c0, t⟩
  · exact absurd rfl hne
  · have hd : c0.isDigit = true := hl c0 (List.mem_cons_self c0 t)
    rw [parseDecList_digit_head c0 t hd]
    rw [parseAfterSign_digits false _ hl hne]
    norm_num

/-- Parsing an all-digit body with a dot-fraction through the sign splitter. -/
theorem parseDecList_dot (l fp : List Char)
    (hl : ∀ c ∈ l, c.isDigit = true) (hne : l ≠ [])
    (hfp : ∀ c ∈ fp, c.isDigit = true) :
    parseDecList? (l ++ '.' :: fp) =
      some ⟨digitsVal l * 10 ^ fp.length + digitsVal fp, fp.length⟩ := by
  rcases l with _ | ⟨c0, t⟩
  · exact absurd rfl hne
  · have hd : c0.isDigit = true := hl c0 (List.mem_cons_self c0 t)
    rw [List.cons_append, parseDecList_digit_head c0 _ hd, ← List.cons_append]
    rw [parseAfterSign_dot false _ fp hl hne hfp]
    norm_num

/-- Rendering a decimal and parsing it back yields its canonical form. -/
theorem parse_toFixed (d : Dec) : parseDec? d.toFixed = some d.norm := by
  rw [parseDec?, Dec.toFixed]
  show parseDecList? d.toFixedChars = some d.norm
  rw [Dec.toFixedChars]
  generalize d.norm = c
  rcases c with ⟨m, e⟩
  simp only
  by_cases he : e = 0
  · subst he
    rw [if_pos rfl]
    by_cases hm : m < 0
    · rw [if_pos hm, List.singleton_append, parseDecList_negcase]
      rw [parseAfterSign_digits true _ (natChars_all_digits _) (natChars_ne_nil _)]
      rw [digitsVal_natChars]
      have hcast : ((m.natAbs : Int)) = -m := Int.ofNat_natAbs_of_nonpos (le_of_lt hm)
      rw [hcast]
      norm_num
    · rw [if_neg hm, List.nil_append]
      rw [parseDecList_digits _ (natChars_all_digits _) (natChars_ne_nil _)]
      rw [digitsVal_natChars]
      have hcast : ((m.natAbs : Int)) = m := Int.natAbs_of_nonneg (not_lt.mp hm)
      rw [hcast]
  · rw [if_neg he]
    have hfpd := padChars_all_digits e m.natAbs
    have hlen : (((natLEPad m.natAbs e).map digitChar).reverse).length = e := by
      rw [List.length_reverse, List.length_map, natLEPad_length]
    have hval : digitsVal (((natLEPad m.natAbs e).map digitChar).reverse) =
        m.natAbs % 10 ^ e := by
      rw [digitsVal_rev_map _ (natLEPad_lt e m.natAbs), valLE_natLEPad]
    have hsumZ : ((m.natAbs / 10 ^ e : Nat) : Int) * 10 ^ e +
        ((m.natAbs % 10 ^ e : Nat) : Int) = (m.natAbs : Int) := by
      have hsum : m.natAbs / 10 ^ e * 10 ^ e + m.natAbs % 10 ^ e = m.natAbs := by
        rw [mul_comm]
        exact Nat.div_add_mod m.natAbs (10 ^ e)
      exact_mod_cast congrArg (fun n : Nat => (n : Int)) hsum
    by_cases hm : m < 0
    · rw [if_pos hm, List.append_assoc, List.singleton_append, parseDecList_negcase]
      rw [parseAfterSign_dot true _ _ (natChars_all_digits _) (natChars_ne_nil _) hfpd]
      rw [digitsVal_natChars, hlen, hval]
      have hcast : ((m.natAbs : Int)) = -m := Int.ofNat_natAbs_of_nonpos (le_of_lt hm)
      rw [hsumZ, hcast]
      norm_num
    · rw [if_neg hm, List.append_assoc, List.nil_append]
      rw [parseDecList_dot _ _ (natChars_all_digits _) (natChars_ne_nil _) hfpd]
      rw [digitsVal_natChars, hlen, hval]
      have hcast : ((m.natAbs : Int)) = m := Int.natAbs_of_nonneg (not_lt.mp hm)
      rw [hsumZ, hcast]

/-! ## Truncated modulus at the rational level

big.js `mod` is the truncated remainder: `a - b * trunc(a / b)`.
`ratTrunc`/`ratTMod` state this abstractly on ℚ, independently of the
mantissa/scale representation; `Dec.toRat_mod` connects the two. -/

/-- Truncation toward zero of a rational. -/
def ratTrunc (q : ℚ) : Int := if 0 ≤ q then ⌊q⌋ else ⌈q⌉

/-- Truncated modulus on rationals (the remainder carries the dividend's sign). -/
def ratTMod (a b : ℚ) : ℚ := a - b * ratTrunc (a / b)

theorem ratTrunc_intCast_div (a b : Int) (hb : 0 < b) :
    ratTrunc ((a : ℚ) / (b : ℚ)) = a.tdiv b := by
  have hbq : (0 : ℚ) < (b : ℚ) := by exact_mod_cast hb
  have hfloor : ∀ c : Int, 0 ≤ c → ⌊(c : ℚ) / (b : ℚ)⌋ = c.tdiv b := by
    intro c hc
    have hbn : ((b.toNat : ℤ)) = b := Int.toNat_of_nonneg hb.le
    have hbq' : ((b.toNat : ℚ)) = (b : ℚ) := by
      exact_mod_cast congrArg (fun z : Int => (z : ℚ)) hbn
    rw [← hbq', Rat.floor_intCast_div_natCast, hbn, Int.tdiv_eq_ediv hc hb.le]
  by_cases ha : 0 ≤ a
  · have hq : 0 ≤ (a : ℚ) / (b : ℚ) := div_nonneg (by exact_mod_cast ha) hbq.le
    rw [ratTrunc, if_pos hq]
    exact hfloor a ha
  · push_neg at ha
    have hq : (a : ℚ) / (b : ℚ) < 0 :=
      div_neg_of_neg_of_pos (by exact_mod_cast ha) hbq
    rw [ratTrunc, if_neg (not_le.mpr hq)]
    have hrw : (a : ℚ) / (b : ℚ) = -(((-a : ℤ) : ℚ) / (b : ℚ)) := by
      push_cast
      ring
    rw [hrw, Int.ceil_neg, hfloor (-a) (by omega), Int.neg_tdiv, neg_neg]

theorem Dec.toRat_eq_div (d : Dec) : d.toRat = (d.m : ℚ) / 10 ^ d.e := rfl

theorem Dec.toRat_eq_zero_iff (d : Dec) : d.toRat = 0 ↔ d.m = 0 := by
  rw [Dec.toRat_eq_div, div_eq_zero_iff]
  constructor
  · intro h
    rcases h with h | h
    · exact_mod_cast h
    · exact absurd h (by positivity)
  · intro h
    left
    exact_mod_cast h

/-- `Dec.mod` computes exactly the truncated modulus of the denoted rationals
(for a positive divisor). -/
theorem Dec.toRat_mod (a b : Dec) (hb : 0 < b.toRat) :
    (a.mod b).toRat = ratTMod a.toRat b.toRat := by
  rcases a with ⟨m₁, e₁⟩
  rcases b with ⟨m₂, e₂⟩
  set E := max e₁ e₂ with hE
  set A : Int := m₁ * 10 ^ (E - e₁) with hA
  set B : Int := m₂ * 10 ^ (E - e₂) with hB
  have hAq : (toRat ⟨m₁, e₁⟩) = (A : ℚ) / 10 ^ E := by
    rw [toRat_eq_div]
    simp only [hA]
    push_cast
    rw [cast_scale_div m₁ e₁ E (le_max_left e₁ e₂)]
  have hBq : (toRat ⟨m₂, e₂⟩) = (B : ℚ) / 10 ^ E := by
    rw [toRat_eq_div]
    simp only [hB]
    push_cast
    rw [cast_scale_div m₂ e₂ E (le_max_right e₁ e₂)]
  have hBpos : 0 < B := by
    have : (0 : ℚ) < (B : ℚ) / 10 ^ E := hBq ▸ hb
    by_contra hc
    push_neg at hc
    have : (B : ℚ) / 10 ^ E ≤ 0 :=
      div_nonpos_of_nonpos_of_nonneg (by exact_mod_cast hc) (by positivity)
    linarith
  have hBq0 : ((B : ℚ)) ≠ 0 := by
    have : (0 : ℚ) < (B : ℚ) := by exact_mod_cast hBpos
    linarith
  have hquot : toRat ⟨m₁, e₁⟩ / toRat ⟨m₂, e₂⟩ = (A : ℚ) / (B : ℚ) := by
    rw [hAq, hBq, div_div_div_cancel_right₀]
    positivity
  show toRat ⟨Int.tmod A B, E⟩ = ratTMod (toRat ⟨m₁, e₁⟩) (toRat ⟨m₂, e₂⟩)
  rw [ratTMod, hquot, ratTrunc_intCast_div A B hBpos, toRat_eq_div]
  simp only
  rw [Int.tmod_def, hAq, hBq]
  push_cast
  field_simp

/-! ### Character-level structure of rendered decimals -/

theorem toFixedChars_chars (d : Dec) :
    ∀ c ∈ d.toFixedChars, c = '-' ∨ c = '.' ∨ c.isDigit = true := by
  rw [Dec.toFixedChars]
  generalize d.norm = k
  rcases k with ⟨km, ke⟩
  simp only
  intro c hc
  have hsign : ∀ x ∈ (if km < 0 then ['-'] else ([] : List Char)), x = '-' := by
    intro x hx
    by_cases hk : km < 0
    · rw [if_pos hk] at hx
      rcases List.mem_singleton.mp hx with rfl
      rfl
    · rw [if_neg hk] at hx
      exact absurd hx (List.not_mem_nil x)
  by_cases he : ke = 0
  · rw [if_pos he] at hc
    rcases List.mem_append.mp hc with h | h
    · exact Or.inl (hsign c h)
    · exact Or.inr (Or.inr (natChars_all_digits _ c h))
  · rw [if_neg he] at hc
    rcases List.mem_append.mp hc with h | h
    · rcases List.mem_append.mp h with h1 | h1
      · exact Or.inl (hsign c h1)
      · exact Or.inr (Or.inr (natChars_all_digits _ c h1))
    · rcases List.mem_cons.mp h with h1 | h1
      · exact Or.inr (Or.inl h1)
      · exact Or.inr (Or.inr (padChars_all_digits _ _ c h1))

theorem toFixedChars_exists_digit (d : Dec) :
    ∃ c ∈ d.toFixedChars, c.isDigit = true := by
  rw [Dec.toFixedChars]
  generalize d.norm = k
  rcases k with ⟨km, ke⟩
  simp only
  by_cases he : ke = 0
  · rw [if_pos he]
    rcases hnc : natChars km.natAbs with _ | ⟨c0, t⟩
    · exact absurd hnc (natChars_ne_nil _)
    · refine ⟨c0, ?_, ?_⟩
      · exact List.mem_append.mpr (Or.inr (hnc ▸ List.mem_cons_self c0 t))
      · exact natChars_all_digits _ c0 (hnc ▸ List.mem_cons_self c0 t)
  · rw [if_neg he]
    rcases hnc : natChars (km.natAbs / 10 ^ ke) with _ | ⟨c0, t⟩
    · exact absurd hnc (natChars_ne_nil _)
    · refine ⟨c0, ?_, ?_⟩
      · exact List.mem_append.mpr (Or.inl (List.mem_append.mpr
          (Or.inr (hnc ▸ List.mem_cons_self c0 t))))
      · exact natChars_all_digits _ c0 (hnc ▸ List.mem_cons_self c0 t)

theorem toFixedChars_ne_dash (d : Dec) : d.toFixedChars ≠ ['-'] := by
  intro h
  obtain ⟨c, hc, hd⟩ := toFixedChars_exists_digit d
  rw [h] at hc
  rcases List.mem_singleton.mp hc with rfl
  exact absurd hd (by decide)

theorem toFixedChars_not_all_whitespace (d : Dec) :
    d.toFixedChars.all Char.isWhitespace = false := by
  obtain ⟨c, hc, hd⟩ := toFixedChars_exists_digit d
  by_contra h
  have hall : d.toFixedChars.all Char.isWhitespace = true := by
    cases hx : d.toFixedChars.all Char.isWhitespace
    · exact absurd hx h
    · rfl
  have := List.all_eq_true.mp hall c hc
  rw [not_whitespace_of_isDigit hd] at this
  exact absurd this (by decide)

theorem toFixedChars_no_comma (d : Dec) : ∀ c ∈ d.toFixedChars, c ≠ ',' := by
  intro c hc
  rcases toFixedChars_chars d c hc with h | h | h
  · subst h; decide
  · subst h; decide
  · exact (isDigit_ne h).2.2.2

/-! ## The number field (Number.js) -/

/-- A JS value as held in form state for the number field: absent
(`null`/`undefined`), a number, or a string. -/
inductive Value where
  | null : Value
  | num : Dec → Value
  | str : String → Value
deriving DecidableEq, Repr

/-- Modelled from the spec: `isNullEquivalentValue` lives in
`src/render/components/util/numberFieldUtil.js`, which is not among the
sources; per the spec, absent values and empty/whitespace-equivalent
strings are null-equivalent. -/
def isNullEquivalentValue : Value → Bool
  | .null => true
  | .str s => s.data.all Char.isWhitespace
  | .num _ => false

/-- Modelled from the spec: `isValidNumber` lives in
`src/render/components/util/numberFieldUtil.js`, which is not among the
sources; per the spec, a value is a valid number when it is a number or a
string that parses as a decimal numeral. -/
def isValidNumber : Value → Bool
  | .null => false
  | .num _ => true
  | .str s => (parseDec? s).isSome

/-- JS `value.toString()` on a canonical numeric value. -/
def valueToString : Value → String
  | .null => ""
  | .num d => d.toFixed
  | .str s => s

/-- JS `Number(value)` on a valid numeric value; JS numbers carry no textual
formatting, so the result is held in canonical `Dec.norm` form. -/
def valueToNum : Value → Dec
  | .null => ⟨0, 0⟩
  | .num d => d.norm
  | .str s => ((parseDec? s).getD ⟨0, 0⟩).norm

/-- `Numberfield.config.sanitizeValue` (Number.js lines 229–236): invalid
value types sanitize to null, otherwise a string or a number is returned
depending on `serializeToString`. -/
def sanitizeValue (serializeToString : Bool) (v : Value) : Value :=
  if isNullEquivalentValue v || !(isValidNumber v) then .null
  else if serializeToString then .str (valueToString v) else .num (valueToNum v)

/-- The truthiness test `value || value === 0` of `displayValue`: every
number passes (a nonzero number is truthy, zero by the explicit check), a
string passes iff nonempty, null fails. -/
def renderableValue : Value → Bool
  | .null => false
  | .num _ => true
  | .str s => !(s == "")

/-- `Big(value)` on the display path (in JS this throws on non-numeric
strings; that case is unreachable under the sanitized values to which the
theorems apply). -/
def valueBig : Value → Dec
  | .null => ⟨0, 0⟩
  | .num d => d
  | .str s => (parseDec? s).getD ⟨0, 0⟩

/-- `displayValue` (Number.js lines 64–70), with `cacheValueMatchesState`
(line 62) inlined: the JS `===` comparison of the two sanitized values is
structural equality here, since sanitized numbers are in canonical form. -/
def displayValue (serializeToString : Bool) (stringValueCache : String)
    (value : Value) : String :=
  if value = .str "NaN" then "NaN"
  else if stringValueCache = "-" then "-"
  else if sanitizeValue serializeToString value =
      sanitizeValue serializeToString (.str stringValueCache) then stringValueCache
  else if renderableValue value then (valueBig value).toFixed else ""

/-- `stringValue.replaceAll(',', '.')` (Number.js line 90). -/
def commasToDots (s : String) : String :=
  ⟨s.data.map (fun c => if c = ',' then '.' else c)⟩

/-- Outcome of one `setValue` call: the new text cache and the value passed
to `onChange`, if any. -/
structure SetValueResult where
  cache : String
  emit : Option Value
deriving DecidableEq, Repr

/-- `setValue` (Number.js lines 81–106).  A `none` input models the JS
`null` passed by the NaN-clearing key handler. -/
def setValue (serializeToString : Bool) (input : Option String) : SetValueResult :=
  match input with
  | none => { cache := "", emit := some .null }
  | some s =>
    if isNullEquivalentValue (.str s) then { cache := "", emit := some .null }
    else
      let t := commasToDots s
      if t = "-" then { cache := "-", emit := none }
      else
        match parseDec? t with
        | none => { cache := "NaN", emit := some (.str "NaN") }
        | some d =>
          { cache := t,
            emit := some (if serializeToString then .str t else .num d.norm) }

/-- `arrowIncrementValue` (Number.js lines 72–78): a configured (truthy)
`increment` wins; else `1e-decimalDigits` when `decimalDigits` is configured
and nonzero (`0` is falsy in JS); else `1`. -/
def arrowIncrementValue (incrementValue : Option Dec) (decimalDigits : Option Nat) : Dec :=
  match incrementValue with
  | some i => i
  | none =>
    match decimalDigits with
    | some dd => if dd = 0 then ⟨1, 0⟩ else ⟨1, dd⟩
    | none => ⟨1, 0⟩

/-- The stepping base: the current value when it is a valid number, else 0
(Number.js lines 113 and 125). -/
def stepBase (value : Value) : Dec :=
  if isValidNumber value then valueBig value else ⟨0, 0⟩

/-- The text handed to `setValue` by `increment` (Number.js lines 108–118). -/
def incrementText (value : Value) (k : Dec) : String :=
  let base := stepBase value
  let stepFlooredValue := base.sub (base.mod k)
  (stepFlooredValue.add k).toFixed

/-- The text handed to `setValue` by `decrement` (Number.js lines 120–139):
on a step boundary subtract a full increment, otherwise floor to the step. -/
def decrementText (value : Value) (k : Dec) : String :=
  let base := stepBase value
  let offset := base.mod k
  if offset.toRat = 0 then (base.sub k).toFixed
  else (base.sub offset).toFixed

/-- The keys `onKeyDown` distinguishes. -/
inductive Key where
  | backspace
  | delete
  | arrowUp
  | arrowDown
  | other
deriving DecidableEq, Repr

/-- Outcome of one `onKeyDown` call: cache update (if any), emission (if
any), and whether the default input behavior was suppressed. -/
structure KeyDownResult where
  cache : Option String
  emit : Option Value
  prevented : Bool
deriving DecidableEq, Repr

/-- `onKeyDown` (Number.js lines 141–162). -/
def onKeyDown (serializeToString readonly : Bool) (value : Value) (k : Dec)
    (key : Key) : KeyDownResult :=
  if value = .str "NaN" ∧ (key = .backspace ∨ key = .delete) then
    let r := setValue serializeToString none
    { cache := some r.cache, emit := r.emit, prevented := true }
  else if key = .arrowUp then
    if readonly then { cache := none, emit := none, prevented := true }
    else
      let r := setValue serializeToString (some (incrementText value k))
      { cache := some r.cache, emit := r.emit, prevented := true }
  else if key = .arrowDown then
    if readonly then { cache := none, emit := none, prevented := true }
    else
      let r := setValue serializeToString (some (decrementText value k))
      { cache := some r.cache, emit := r.emit, prevented := true }
  else { cache := none, emit := none, prevented := false }

/-- The rational value carried by an emitted form value, when any. -/
def emittedRat : Option Value → Option ℚ
  | some (.num d) => some d.toRat
  | some (.str s) => (parseDec? s).map Dec.toRat
  | some .null => none
  | none => none

/-! ### `setValue` on rendered decimals -/

theorem map_id_of_no_comma (l : List Char) (h : ∀ c ∈ l, c ≠ ',') :
    l.map (fun c => if c = ',' then '.' else c) = l := by
  induction l with
  | nil => rfl
  | cons c t ih =>
    rw [List.map_cons, if_neg (h c (List.mem_cons_self c t)),
      ih (fun x hx => h x (List.mem_cons_of_mem _ hx))]

theorem commasToDots_toFixed (d : Dec) : commasToDots d.toFixed = d.toFixed := by
  rw [commasToDots]
  have hdata : d.toFixed.data = d.toFixedChars := rfl
  rw [hdata, map_id_of_no_comma _ (toFixedChars_no_comma d)]
  rfl

theorem toFixed_not_nullEquivalent (d : Dec) :
    isNullEquivalentValue (.str d.toFixed) = false := by
  show d.toFixed.data.all Char.isWhitespace = false
  exact toFixedChars_not_all_whitespace d

theorem toFixed_ne_dash (d : Dec) : d.toFixed ≠ "-" := by
  intro h
  exact toFixedChars_ne_dash d (congrArg String.data h)

/-- `setValue` applied to a rendered decimal never hits the null, fragment
or NaN branch: it caches the text and emits the parsed value. -/
theorem setValue_toFixed (sTS : Bool) (d : Dec) :
    setValue sTS (some d.toFixed) =
      { cache := d.toFixed,
        emit := some (if sTS then .str d.toFixed else .num d.norm) } := by
  rw [setValue]
  simp only [toFixed_not_nullEquivalent d, Bool.false_eq_true, if_false,
    commasToDots_toFixed d, if_neg (toFixed_ne_dash d), parse_toFixed d]
  rw [Dec.norm_idem]

/-! ## Repeat rendering (RepeatRenderManager.js) -/

variable {α : Type*}

/-- The repeat-relevant attributes of a field definition.
`nonCollapsedItems` is `none` when not configured (`undefined` in JS). -/
structure RepeaterField where
  disableCollapse : Bool
  nonCollapsedItems : Option Int
  allowAddRemove : Bool
  componentsLength : Nat
deriving DecidableEq, Repr

/-- Per-instance shared repeat state (`useSharedState`): the collapse flag. -/
structure SharedRepeatState where
  isCollapsed : Bool
deriving DecidableEq, Repr

/-- `_getNonCollapsedItems` (RepeatRenderManager.js lines 189–195):
`nonCollapsedItems ? nonCollapsedItems : 5` is a JS truthiness test, so `0`
and absent fall back to the default of 5 while any other configured value —
negative ones included — is returned as-is. -/
def getNonCollapsedItems (f : RepeaterField) : Int :=
  match f.nonCollapsedItems with
  | none => 5
  | some n => if n = 0 then 5 else n

/-- JS `Array.prototype.slice(0, stop)`: a negative `stop` counts from the
end, clamped at zero; a large `stop` is clamped at the length. -/
def jsSliceTo (l : List α) (stop : Int) : List α :=
  let len : Int := l.length
  let stopIdx := if stop < 0 then max (len + stop) 0 else min stop len
  l.take stopIdx.toNat

/-- `collapseEnabled` (RepeatRenderManager.js lines 58 and 128). -/
def collapseEnabled (f : RepeaterField) (values : List α) : Bool :=
  !f.disableCollapse && ((values.length : Int) > getNonCollapsedItems f)

/-- The visible sequence `displayValues` of the `Repeater`
(RepeatRenderManager.js lines 57–64). -/
def displayValues (f : RepeaterField) (shared : SharedRepeatState)
    (values : List α) : List α :=
  let isCollapsed := collapseEnabled f values && shared.isCollapsed
  if isCollapsed then jsSliceTo values (getNonCollapsedItems f) else values

/-- JS `array.splice(index, 1)` on a copy: a negative index counts from the
end (clamped at zero), an index at or beyond the length removes nothing. -/
def jsSpliceRemove (l : List α) (index : Int) : List α :=
  let len : Int := l.length
  let s := (if index < 0 then max (len + index) 0 else min index len).toNat
  l.take s ++ l.drop (s + 1)

/-- `onDeleteItem` (RepeatRenderManager.js lines 66–76): copies the array,
splices the index out and unconditionally calls `props.onChange`; the
`some` payload is the value passed to `onChange` — the handler has no
guarded, emission-free path. -/
def onDeleteItem (values : List α) (index : Int) : Option (List α) :=
  some (jsSpliceRemove values index)

/-- Outcome of `onAddItem`: the array passed to `onChange`, the new shared
state, and the scroll-into-view flag. -/
structure AddResult (α : Type*) where
  emit : List α
  newShared : SharedRepeatState
  scroll : Bool

/-- `onAddItem` (RepeatRenderManager.js lines 140–158): appends the item the
external default-data initializer produces for index `values.length`,
raises the scroll flag, emits the new array and expands the group. -/
def onAddItem (init : Nat → α) (values : List α) (shared : SharedRepeatState) :
    AddResult α :=
  { emit := values ++ [init values.length],
    newShared := { shared with isCollapsed := false },
    scroll := true }

/-- Outcome of `toggle`: the new shared state; `emitsChange` records that
the handler makes no `onChange` call (it only updates shared state). -/
structure ToggleResult where
  newShared : SharedRepeatState
  emitsChange : Bool
deriving DecidableEq, Repr

/-- `toggle` (RepeatRenderManager.js lines 134–136): the new flag is the
negation of the derived `isCollapsed` of line 129, which is
`collapseEnabled && state.isCollapsed` — not of the raw stored flag. -/
def toggle (collapseEnabledNow : Bool) (shared : SharedRepeatState) : ToggleResult :=
  { newShared := { shared with isCollapsed := !(collapseEnabledNow && shared.isCollapsed) },
    emitsChange := false }

/-! ## Claims: repeat rendering -/

/-- C1 (counterexample): with a configured negative `nonCollapsedItems`
(effective cap `-1`), two items and the collapsed flag set, the code shows
the first item (JS `slice(0, -1)` counts from the end) — not the "first N
items" the claim predicts (an empty prefix, since N is negative). -/
theorem repeater_visible_slice_cex :
    displayValues ⟨false, some (-1), false, 0⟩ ⟨true⟩ ([0, 1] : List Nat) ≠
      ([0, 1] : List Nat).take
        (getNonCollapsedItems ⟨false, some (-1), false, 0⟩).toNat := by
  decide

/-- C1 (amended): for every repeatable field whose effective cap `N` is
nonnegative and backing array of length `L`: the visible sequence equals the
full array when `disableCollapse` is set or `L ≤ N`; it equals the full
array when the shared collapsed flag is false; when the flag is set,
collapse is not disabled and `L > N`, it is exactly the first `N` items,
`min L N` many; and `collapseEnabled` holds iff `L > N` and collapse is not
disabled. -/
theorem repeater_visible_slice_spec (f : RepeaterField) (shared : SharedRepeatState)
    (values : List α) (hN : 0 ≤ getNonCollapsedItems f) :
    (f.disableCollapse = true ∨ (values.length : Int) ≤ getNonCollapsedItems f →
      displayValues f shared values = values) ∧
    (shared.isCollapsed = false → displayValues f shared values = values) ∧
    (shared.isCollapsed = true → f.disableCollapse = false →
      getNonCollapsedItems f < (values.length : Int) →
      displayValues f shared values = values.take (getNonCollapsedItems f).toNat ∧
      (displayValues f shared values).length =
        min values.length (getNonCollapsedItems f).toNat) ∧
    (collapseEnabled f values = true ↔
      (getNonCollapsedItems f < (values.length : Int) ∧ f.disableCollapse = false)) := by
  have hce : collapseEnabled f values = true ↔
      (getNonCollapsedItems f < (values.length : Int) ∧ f.disableCollapse = false) := by
    rw [collapseEnabled]
    rw [Bool.and_eq_true, Bool.not_eq_true']
    rw [decide_eq_true_eq]
    constructor
    · rintro ⟨h1, h2⟩
      exact ⟨h2, h1⟩
    · rintro ⟨h1, h2⟩
      exact ⟨h2, h1⟩
  refine ⟨?_, ?_, ?_, hce⟩
  · intro h
    have hcef : collapseEnabled f values = false := by
      rcases hx : collapseEnabled f values
      · rfl
      · rcases hce.mp hx with ⟨h1, h2⟩
        rcases h with h | h
        · rw [h2] at h
          exact absurd h (by decide)
        · exact absurd h (not_le.mpr h1)
    rw [displayValues]
    simp [hcef]
  · intro h
    rw [displayValues]
    simp [h]
  · intro h1 h2 h3
    have hcet : collapseEnabled f values = true := hce.mpr ⟨h3, h2⟩
    have hslice : jsSliceTo values (getNonCollapsedItems f) =
        values.take (getNonCollapsedItems f).toNat := by
      simp only [jsSliceTo]
      rw [if_neg (not_lt.mpr hN)]
      have htn : (min (getNonCollapsedItems f) (values.length : Int)).toNat =
          min (getNonCollapsedItems f).toNat values.length := by
        omega
      rw [htn, ← List.take_take, List.take_length]
    have hdisp : displayValues f shared values =
        values.take (getNonCollapsedItems f).toNat := by
      rw [displayValues]
      simp only [hcet, h1, Bool.and_self, if_pos]
      exact hslice
    refine ⟨hdisp, ?_⟩
    rw [hdisp, List.length_take, min_comm]

/-- C1 (witness): the spec's own example — cap 5, collapse enabled, eight
items, collapsed — shows the first five items. -/
theorem repeater_visible_slice_spec_witness :
    0 ≤ getNonCollapsedItems ⟨false, some 5, true, 1⟩ ∧
    displayValues ⟨false, some 5, true, 1⟩ ⟨true⟩ ([0, 1, 2, 3, 4, 5, 6, 7] : List Nat) =
      ([0, 1, 2, 3, 4, 5, 6, 7] : List Nat).take
        (getNonCollapsedItems ⟨false, some 5, true, 1⟩).toNat :=
  ⟨by decide,
    ((repeater_visible_slice_spec ⟨false, some 5, true, 1⟩ ⟨true⟩ _
      (by decide)).2.2.1 rfl rfl (by decide)).1⟩

/-- C3 (counterexample): `onDeleteItem` with index 10 on a length-3 array
does call `onChange` (with the unchanged array); the claim's "no emitted
mutation" is false. -/
theorem repeater_remove_out_of_range_cex :
    onDeleteItem ([0, 1, 2] : List Nat) 10 = some [0, 1, 2] ∧
    onDeleteItem ([0, 1, 2] : List Nat) 10 ≠ none := by
  decide

/-- C3 (amended): for every index at or beyond the length, the remove-item
action leaves the array content unchanged, but it still emits a mutation
request carrying the unchanged array — the handler has no emission-free
path.  (A negative index is not content-preserving: JS `splice` counts it
from the end of the array.) -/
theorem repeater_remove_out_of_range_noop (values : List α) (index : Int)
    (h : (values.length : Int) ≤ index) :
    onDeleteItem values index = some values := by
  simp only [onDeleteItem, jsSpliceRemove]
  have h0 : ¬ index < 0 := by omega
  rw [if_neg h0, min_eq_right h]
  have hlen : ((values.length : Int)).toNat = values.length := by omega
  rw [hlen, List.take_length, List.drop_eq_nil_of_le (by omega), List.append_nil]

/-- C3 (witness): index 10 on a length-3 array emits the unchanged array. -/
theorem repeater_remove_out_of_range_noop_witness :
    onDeleteItem ([0, 1, 2] : List Nat) 10 = some [0, 1, 2] :=
  repeater_remove_out_of_range_noop [0, 1, 2] 10 (by decide)

/-- C5: adding an item emits an array one longer, equal to the old array on
its first `L` positions, ending in the item the external initializer
produced for index `L`; the shared collapse state is forced to expanded and
the scroll-into-view flag is raised. -/
theorem repeater_addItem_spec (init : Nat → α) (values : List α)
    (shared : SharedRepeatState) :
    (onAddItem init values shared).emit.length = values.length + 1 ∧
    (onAddItem init values shared).emit.take values.length = values ∧
    (onAddItem init values shared).emit.getLast? = some (init values.length) ∧
    (onAddItem init values shared).newShared.isCollapsed = false ∧
    (onAddItem init values shared).scroll = true := by
  refine ⟨?_, ?_, ?_, rfl, rfl⟩
  · rw [onAddItem]
    simp
  · rw [onAddItem]
    simp only
    rw [List.take_left]
  · rw [onAddItem]
    simp only
    rw [List.getLast?_concat]

/-- C8: removing an in-range index emits the array with exactly that element
excised (the prefix before it followed by the suffix after it, preserving
relative order), one item shorter. -/
theorem repeater_remove_in_range_spec (values : List α) (i : Nat)
    (h : i < values.length) :
    onDeleteItem values (i : Int) =
      some (values.take i ++ values.drop (i + 1)) ∧
    (values.take i ++ values.drop (i + 1)).length = values.length - 1 := by
  constructor
  · simp only [onDeleteItem, jsSpliceRemove]
    have h0 : ¬ ((i : Int)) < 0 := by omega
    rw [if_neg h0, min_eq_left (by exact_mod_cast Nat.le_of_lt h)]
    have htn : ((i : Int)).toNat = i := by omega
    rw [htn]
  · rw [List.length_append, List.length_take, List.length_drop]
    omega

/-- C8 (witness): removing index 1 of a three-item array. -/
theorem repeater_remove_in_range_spec_witness :
    onDeleteItem ([0, 1, 2] : List Nat) ((1 : Nat) : Int) =
      some (([0, 1, 2] : List Nat).take 1 ++ ([0, 1, 2] : List Nat).drop 2) ∧
    (([0, 1, 2] : List Nat).take 1 ++ ([0, 1, 2] : List Nat).drop 2).length = 3 - 1 :=
  repeater_remove_in_range_spec [0, 1, 2] 1 (by decide)

/-- C9 (counterexample): when collapse is not enabled (here: no items exceed
the cap), the code's toggle sets the stored flag to `true` regardless of its
previous value — with the flag already `true`, the result is not its
negation. -/
theorem repeater_toggle_cex :
    (toggle false ⟨true⟩).newShared.isCollapsed ≠ (!true) := by
  decide

/-- C9 (amended): when collapse is enabled — the only situation in which the
collapse button is rendered — toggling negates the stored flag; when it is
not enabled, the new flag is `true` regardless.  Either way the handler
emits no data mutation, leaving the backing array and form data untouched. -/
theorem repeater_toggle_spec (ce : Bool) (shared : SharedRepeatState) :
    (ce = true → (toggle ce shared).newShared.isCollapsed = !shared.isCollapsed) ∧
    (ce = false → (toggle ce shared).newShared.isCollapsed = true) ∧
    (toggle ce shared).emitsChange = false := by
  refine ⟨?_, ?_, rfl⟩
  · rintro rfl
    rw [toggle]
    simp
  · rintro rfl
    rw [toggle]
    simp

/-- C9 (witness): with collapse enabled, toggling a collapsed state expands
it and emits no change. -/
theorem repeater_toggle_spec_witness :
    (toggle true ⟨true⟩).newShared.isCollapsed = (!true) ∧
    (toggle true ⟨true⟩).emitsChange = false :=
  ⟨(repeater_toggle_spec true ⟨true⟩).1 rfl, (repeater_toggle_spec true ⟨true⟩).2.2⟩

/-- C7 (counterexample): a configured `nonCollapsedItems` of `-3` is truthy
in JS, so `_getNonCollapsedItems` returns it as-is — it is not defaulted to
5 as the claim predicts for non-positive configurations. -/
theorem repeater_cap_cex :
    getNonCollapsedItems ⟨false, some (-3), false, 0⟩ = -3 ∧ ((-3 : Int) ≠ 5) := by
  decide

/-- C7 (amended): the effective cap equals the configured
`nonCollapsedItems` whenever that value is truthy (nonzero) — negative
values included, used as-is rather than clamped — and defaults to 5 when
the configuration is absent or zero; the lookup is total and never raises. -/
theorem repeater_cap_spec (f : RepeaterField) :
    (∀ n, f.nonCollapsedItems = some n → n ≠ 0 → getNonCollapsedItems f = n) ∧
    (f.nonCollapsedItems = none ∨ f.nonCollapsedItems = some 0 →
      getNonCollapsedItems f = 5) := by
  constructor
  · intro n hn hnz
    rw [getNonCollapsedItems, hn]
    simp [hnz]
  · rintro (h | h) <;> rw [getNonCollapsedItems, h]
    simp

/-- C7 (witness): a configured positive cap of 7 is used; an absent cap
defaults to 5. -/
theorem repeater_cap_spec_witness :
    getNonCollapsedItems ⟨false, some 7, true, 1⟩ = 7 ∧
    getNonCollapsedItems ⟨false, none, true, 1⟩ = 5 :=
  ⟨(repeater_cap_spec ⟨false, some 7, true, 1⟩).1 7 rfl (by decide),
    (repeater_cap_spec ⟨false, none, true, 1⟩).2 (Or.inl rfl)⟩

/-! ## Claims: number field -/

/-- C10: with the canonical value at the sentinel "NaN", Backspace or Delete
clears the whole state at once — the cache is reset to the empty string,
null is emitted to form state, and the default character-wise deletion is
suppressed. -/
theorem numberfield_nan_clear_spec (serializeToString readonly : Bool) (k : Dec)
    (key : Key) (h : key = .backspace ∨ key = .delete) :
    onKeyDown serializeToString readonly (.str "NaN") k key =
      { cache := some "", emit := some .null, prevented := true } := by
  rw [onKeyDown, if_pos ⟨rfl, h⟩]
  rfl

/-- C10 (witness): Backspace on a "NaN" state. -/
theorem numberfield_nan_clear_spec_witness :
    onKeyDown false false (.str "NaN") ⟨1, 0⟩ .backspace =
      { cache := some "", emit := some .null, prevented := true } :=
  numberfield_nan_clear_spec false false ⟨1, 0⟩ .backspace (Or.inl rfl)

/-! ### The `setValue` branches -/

theorem setValue_none (sTS : Bool) :
    setValue sTS none = { cache := "", emit := some .null } := rfl

theorem setValue_nullEquiv (sTS : Bool) (s : String)
    (h : isNullEquivalentValue (.str s) = true) :
    setValue sTS (some s) = { cache := "", emit := some .null } := by
  simp only [setValue]
  rw [if_pos h]

theorem setValue_dash (sTS : Bool) (s : String)
    (h1 : isNullEquivalentValue (.str s) = false) (h2 : commasToDots s = "-") :
    setValue sTS (some s) = { cache := "-", emit := none } := by
  simp only [setValue]
  rw [if_neg (by rw [h1]; exact Bool.false_ne_true), if_pos h2]

theorem setValue_nan (sTS : Bool) (s : String)
    (h1 : isNullEquivalentValue (.str s) = false) (h2 : commasToDots s ≠ "-")
    (h3 : parseDec? (commasToDots s) = none) :
    setValue sTS (some s) = { cache := "NaN", emit := some (.str "NaN") } := by
  simp only [setValue]
  rw [if_neg (by rw [h1]; exact Bool.false_ne_true), if_neg h2, h3]

theorem setValue_parses (sTS : Bool) (s : String) (d : Dec)
    (h1 : isNullEquivalentValue (.str s) = false) (h2 : commasToDots s ≠ "-")
    (h3 : parseDec? (commasToDots s) = some d) :
    setValue sTS (some s) =
      { cache := commasToDots s,
        emit := some (if sTS then .str (commasToDots s) else .num d.norm) } := by
  simp only [setValue]
  rw [if_neg (by rw [h1]; exact Bool.false_ne_true), if_neg h2, h3]

/-- C4: the `setValue` branch behavior — null/whitespace-equivalent input
clears the cache and emits null; after comma normalization a lone "-" is
cached without emitting; unparsable text emits the "NaN" sentinel; parsable
text emits the parsed number (its text form under `serializeToString`) and
caches the normalized text — and the emitted value is always null, "NaN", a
number, or a parsable numeric string, never an in-progress fragment. -/
theorem numberfield_setValue_spec (sTS : Bool) (input : Option String) :
    (input = none → setValue sTS input = { cache := "", emit := some .null }) ∧
    (∀ s, input = some s →
      (isNullEquivalentValue (.str s) = true →
        setValue sTS input = { cache := "", emit := some .null }) ∧
      (isNullEquivalentValue (.str s) = false → commasToDots s = "-" →
        setValue sTS input = { cache := "-", emit := none }) ∧
      (isNullEquivalentValue (.str s) = false → commasToDots s ≠ "-" →
        parseDec? (commasToDots s) = none →
        setValue sTS input = { cache := "NaN", emit := some (.str "NaN") }) ∧
      (∀ d, isNullEquivalentValue (.str s) = false → commasToDots s ≠ "-" →
        parseDec? (commasToDots s) = some d →
        setValue sTS input =
          { cache := commasToDots s,
            emit := some (if sTS then .str (commasToDots s) else .num d.norm) })) ∧
    (∀ v, (setValue sTS input).emit = some v →
      v = .null ∨ v = .str "NaN" ∨ (∃ d, v = .num d) ∨
      (sTS = true ∧ ∃ t, v = .str t ∧ (parseDec? t).isSome = true)) := by
  refine ⟨?_, ?_, ?_⟩
  · rintro rfl
    exact setValue_none sTS
  · rintro s rfl
    exact ⟨fun h => setValue_nullEquiv sTS s h,
      fun h1 h2 => setValue_dash sTS s h1 h2,
      fun h1 h2 h3 => setValue_nan sTS s h1 h2 h3,
      fun d h1 h2 h3 => setValue_parses sTS s d h1 h2 h3⟩
  · intro v hv
    rcases input with _ | s
    · rw [setValue_none sTS] at hv
      simp only at hv
      exact Or.inl (Option.some.inj hv).symm
    · rcases h1 : isNullEquivalentValue (.str s) with _ | _
      · by_cases h2 : commasToDots s = "-"
        · rw [setValue_dash sTS s h1 h2] at hv
          exact absurd hv (by simp)
        · rcases h3 : parseDec? (commasToDots s) with _ | d
          · rw [setValue_nan sTS s h1 h2 h3] at hv
            simp only at hv
            exact Or.inr (Or.inl (Option.some.inj hv).symm)
          · rw [setValue_parses sTS s d h1 h2 h3] at hv
            simp only at hv
            rcases hsts : sTS with _ | _
            · rw [hsts, if_neg (by simp)] at hv
              exact Or.inr (Or.inr (Or.inl ⟨d.norm, (Option.some.inj hv).symm⟩))
            · rw [hsts, if_pos rfl] at hv
              refine Or.inr (Or.inr (Or.inr ⟨rfl, commasToDots s, (Option.some.inj hv).symm, ?_⟩))
              rw [h3]
              rfl
      · rw [setValue_nullEquiv sTS s h1] at hv
        simp only at hv
        exact Or.inl (Option.some.inj hv).symm

/-- C4 (witness): a lone "-" is cached without emission; "-5" then emits the
number -5; whitespace clears; "abc" emits the sentinel. -/
theorem numberfield_setValue_spec_witness :
    setValue false (some "-") = { cache := "-", emit := none } ∧
    setValue false (some "-5") =
      { cache := "-5", emit := some (.num (Dec.mk (-5) 0)) } ∧
    setValue false (some " ") = { cache := "", emit := some .null } ∧
    setValue false (some "abc") = { cache := "NaN", emit := some (.str "NaN") } := by
  refine ⟨?_, ?_, ?_, ?_⟩
  · exact ((numberfield_setValue_spec false (some "-")).2.1 "-" rfl).2.1 (by decide) (by decide)
  · have h := ((numberfield_setValue_spec false (some "-5")).2.1 "-5" rfl).2.2.2
      ⟨-5, 0⟩ (by decide) (by decide) (by decide)
    rw [h]
    decide
  · exact ((numberfield_setValue_spec false (some " ")).2.1 " " rfl).1 (by decide)
  · exact ((numberfield_setValue_spec false (some "abc")).2.1 "abc" rfl).2.2.1
      (by decide) (by decide) (by decide)

/-- Emitting a rendered decimal hands form state exactly its rational value,
whether serialized as a string or as a number. -/
theorem emittedRat_setValue_toFixed (sTS : Bool) (x : Dec) :
    emittedRat (setValue sTS (some x.toFixed)).emit = some x.toRat := by
  rw [setValue_toFixed sTS x]
  simp only
  rcases sTS with _ | _
  · rw [if_neg (by simp)]
    show some x.norm.toRat = some x.toRat
    rw [Dec.norm_toRat]
  · rw [if_pos rfl]
    show (parseDec? x.toFixed).map Dec.toRat = some x.toRat
    rw [parse_toFixed]
    show some x.norm.toRat = some x.toRat
    rw [Dec.norm_toRat]

/-- C2: with base `v` (the current value when it is a valid number, else 0)
and increment magnitude `k` (the configured increment if truthy, else
`10^-decimalDigits` when `decimalDigits` is configured, else 1), increment
emits `(v - (v mod k)) + k` and decrement emits `v - k` on a step boundary
(`v mod k = 0`) and `v - (v mod k)` otherwise, where `mod` is the truncated
(sign-of-dividend) modulus big.js computes; all arithmetic is exact. -/
theorem numberfield_step_spec (sTS : Bool) (value : Value) (incCfg : Option Dec)
    (dd : Option Nat) (hk : 0 < (arrowIncrementValue incCfg dd).toRat) :
    emittedRat (setValue sTS
        (some (incrementText value (arrowIncrementValue incCfg dd)))).emit =
      some ((stepBase value).toRat -
        ratTMod (stepBase value).toRat (arrowIncrementValue incCfg dd).toRat +
        (arrowIncrementValue incCfg dd).toRat) ∧
    emittedRat (setValue sTS
        (some (decrementText value (arrowIncrementValue incCfg dd)))).emit =
      some (if ratTMod (stepBase value).toRat (arrowIncrementValue incCfg dd).toRat = 0
        then (stepBase value).toRat - (arrowIncrementValue incCfg dd).toRat
        else (stepBase value).toRat -
          ratTMod (stepBase value).toRat (arrowIncrementValue incCfg dd).toRat) ∧
    (∀ i, incCfg = some i → (arrowIncrementValue incCfg dd).toRat = i.toRat) ∧
    (incCfg = none → ∀ n, dd = some n →
      (arrowIncrementValue incCfg dd).toRat = 1 / 10 ^ n) ∧
    (incCfg = none → dd = none → (arrowIncrementValue incCfg dd).toRat = 1) := by
  set k := arrowIncrementValue incCfg dd with hkdef
  set b := stepBase value with hbdef
  have hmod := Dec.toRat_mod b k hk
  refine ⟨?_, ?_, ?_, ?_, ?_⟩
  · have hit : incrementText value k = ((b.sub (b.mod k)).add k).toFixed := rfl
    rw [hit, emittedRat_setValue_toFixed, Dec.toRat_add, Dec.toRat_sub, hmod]
  · by_cases h0 : ratTMod b.toRat k.toRat = 0
    · have hz : (b.mod k).toRat = 0 := by rw [hmod, h0]
      have hdt : decrementText value k = (b.sub k).toFixed := by
        simp only [decrementText]
        rw [if_pos hz]
      rw [hdt, emittedRat_setValue_toFixed, Dec.toRat_sub, if_pos h0]
    · have hz : ¬ (b.mod k).toRat = 0 := by rw [hmod]; exact h0
      have hdt : decrementText value k = (b.sub (b.mod k)).toFixed := by
        simp only [decrementText]
        rw [if_neg hz]
      rw [hdt, emittedRat_setValue_toFixed, Dec.toRat_sub, hmod, if_neg h0]
  · rintro i rfl
    rw [hkdef]
    rfl
  · rintro rfl n rfl
    rw [hkdef]
    show (arrowIncrementValue none (some n)).toRat = 1 / 10 ^ n
    by_cases hn : n = 0
    · subst hn
      norm_num [arrowIncrementValue, Dec.toRat]
    · show (if n = 0 then (⟨1, 0⟩ : Dec) else ⟨1, n⟩).toRat = 1 / 10 ^ n
      rw [if_neg hn]
      simp [Dec.toRat]
  · rintro rfl rfl
    rw [hkdef]
    show Dec.toRat ⟨1, 0⟩ = 1
    norm_num [Dec.toRat]

/-- C2 (witness): the spec's example — `decimalDigits = 2`, current value 1,
increment — emits the exact decimal, the string "1.01" under
`serializeToString`. -/
theorem numberfield_step_spec_witness :
    0 < (arrowIncrementValue none (some 2)).toRat ∧
    emittedRat (setValue true (some (incrementText (.num ⟨1, 0⟩)
        (arrowIncrementValue none (some 2))))).emit =
      some ((stepBase (.num ⟨1, 0⟩)).toRat -
        ratTMod (stepBase (.num ⟨1, 0⟩)).toRat (arrowIncrementValue none (some 2)).toRat +
        (arrowIncrementValue none (some 2)).toRat) ∧
    (setValue true (some (incrementText (.num ⟨1, 0⟩)
        (arrowIncrementValue none (some 2))))).emit = some (.str "1.01") :=
  ⟨by norm_num [arrowIncrementValue, Dec.toRat],
   (numberfield_step_spec true (.num ⟨1, 0⟩) none (some 2)
     (by norm_num [arrowIncrementValue, Dec.toRat])).1,
   by decide⟩

/-! ### Sanitize/display round trip -/

/-- The normalization step in `valueToNum` is idempotent. -/
theorem valueToNum_norm (v : Value) : (valueToNum v).norm = valueToNum v := by
  rcases v with _ | d | s
  · rfl
  · exact Dec.norm_idem d
  · exact Dec.norm_idem _

/-- A canonical value under `serializeToString = false` is null or a number
in canonical form. -/
theorem sanitize_false_shape (v : Value) :
    sanitizeValue false v = .null ∨
    ∃ d, sanitizeValue false v = .num d ∧ d.norm = d := by
  rw [sanitizeValue]
  by_cases h : (isNullEquivalentValue v || !(isValidNumber v)) = true
  · rw [if_pos h]
    exact Or.inl rfl
  · rw [if_neg h]
    rw [if_neg (by simp)]
    exact Or.inr ⟨valueToNum v, rfl, valueToNum_norm v⟩

/-- Sanitizing a canonical number is the identity. -/
theorem sanitize_false_num_fixed (d : Dec) (hd : d.norm = d) :
    sanitizeValue false (.num d) = .num d := by
  rw [sanitizeValue]
  rw [if_neg (by simp [isNullEquivalentValue, isValidNumber])]
  rw [if_neg (by simp)]
  show Value.num d.norm = Value.num d
  rw [hd]

/-- Sanitizing the rendered text of a canonical number recovers the number. -/
theorem sanitize_toFixed_num (d : Dec) (hd : d.norm = d) :
    sanitizeValue false (.str d.toFixed) = .num d := by
  rw [sanitizeValue]
  have h1 : isNullEquivalentValue (.str d.toFixed) = false := toFixed_not_nullEquivalent d
  have h2 : isValidNumber (.str d.toFixed) = true := by
    show (parseDec? d.toFixed).isSome = true
    rw [parse_toFixed]
    rfl
  rw [if_neg (by simp [h1, h2])]
  rw [if_neg (by simp)]
  show Value.num ((parseDec? d.toFixed).getD ⟨0, 0⟩).norm = Value.num d
  rw [parse_toFixed]
  show Value.num d.norm.norm = Value.num d
  rw [Dec.norm_idem, hd]

/-- C6 (counterexample): with the cache holding the in-progress fragment
"-" and canonical value 5, `displayValue` returns "-" (the fragment branch
precedes the match test), which sanitizes to null, not to 5. -/
theorem numberfield_roundtrip_cex :
    sanitizeValue false
        (.str (displayValue false "-" (sanitizeValue false (.num ⟨5, 0⟩)))) ≠
      sanitizeValue false (.num ⟨5, 0⟩) := by
  decide

/-- C6 (amended): under `serializeToString = false` and for every cache
other than the in-progress fragment "-", sanitizing the display value
computed from the cache and the sanitized canonical value yields the
sanitized value again. -/
theorem numberfield_roundtrip_spec (v : Value) (cache : String) (hc : cache ≠ "-") :
    sanitizeValue false (.str (displayValue false cache (sanitizeValue false v))) =
      sanitizeValue false v := by
  rcases sanitize_false_shape v with hw | ⟨d, hw, hdn⟩
  · rw [hw, displayValue]
    rw [if_neg (by decide), if_neg hc]
    by_cases hmatch : sanitizeValue false Value.null = sanitizeValue false (.str cache)
    · rw [if_pos hmatch, ← hmatch]
      rfl
    · rw [if_neg hmatch]
      rw [if_neg (by decide)]
      decide
  · rw [hw, displayValue]
    rw [if_neg (by simp), if_neg hc]
    by_cases hmatch : sanitizeValue false (Value.num d) = sanitizeValue false (.str cache)
    · rw [if_pos hmatch, ← hmatch, sanitize_false_num_fixed d hdn]
    · rw [if_neg hmatch]
      rw [if_pos (show renderableValue (Value.num d) = true from rfl)]
      show sanitizeValue false (.str (valueBig (.num d)).toFixed) = Value.num d
      show sanitizeValue false (.str d.toFixed) = Value.num d
      rw [sanitize_toFixed_num d hdn]

/-- C6 (witness): a cache "1.50" that denotes the same number as the
canonical value "1.5" is preserved by display and sanitizes back to it. -/
theorem numberfield_roundtrip_spec_witness :
    sanitizeValue false
        (.str (displayValue false "1.50" (sanitizeValue false (.str "1.5")))) =
      sanitizeValue false (.str "1.5") :=
  numberfield_roundtrip_spec (.str "1.5") "1.50" (by decide)
